import Mathlib

/-!
Shallow embedding of the ear retrieval engine of the Jerenemy/website
repository (src/app/ear/engine.py, src/app/blueprints/ear/routes.py, and
the standalone variant src/projects/ear/service.py).

Similarity scores are modelled as rationals; embeddings themselves are
opaque rows (the neural encoders are external collaborators).  Stateful
Python code is modelled by explicit state passing; exceptions by Except.
-/

deriving instance DecidableEq for Except

namespace EarSite

/-- One embedding row of db_tensor.  Its numeric content is never inspected
by the code under verification, only row counts and the similarity scores
derived from it, so rows stay abstract lists of rationals. -/
abbrev Row := List ℚ

/-- One metadata record of db_metadata, as built in EarEngine._index_dataset:
a dict with keys type, url, label. -/
structure Item where
  type : String
  url : String
  label : String
deriving DecidableEq, Repr

/-- One entry of the result buckets built in EarEngine._handle_query. -/
structure ResultObj where
  type : String
  url : String
  label : String
  score : ℚ
deriving DecidableEq, Repr

/-- Python round(x, 3) used for the displayed score.  Modelled as rounding
x * 1000 to an integer and dividing back.  (Python uses round-half-to-even,
Mathlib round is round-half-up; both are monotone, which is the only
property the claims depend on, and they agree away from exact .0005
boundaries.) -/
def round3 (q : ℚ) : ℚ := (round (q * 1000) : ℤ) / 1000

/-- The candidate walk of EarEngine._handle_query lines 282-299: zip of
topk scores and indices is walked in order; each candidate is appended to
same_modality_results if its stored type equals query_type (else to
cross_modality_results) while that bucket has fewer than 5 entries, and
the walk breaks early once both buckets have at least 5 entries.
db.getD is safe because topk indices are in range (IsTopK below). -/
def resultObjOf (db : List Item) (s : ℚ) (i : Nat) : ResultObj :=
  let item := db.getD i ⟨"", "", ""⟩
  ⟨item.type, item.url, item.label, round3 s⟩

def routeCandidates (db : List Item) (queryType : String) :
    List (ℚ × Nat) → List ResultObj → List ResultObj →
    List ResultObj × List ResultObj
  | [], same, cross => (same, cross)
  | (s, i) :: rest, same, cross =>
    let r := resultObjOf db s i
    let same2 := if r.type = queryType ∧ same.length < 5 then same ++ [r] else same
    let cross2 := if r.type ≠ queryType ∧ cross.length < 5 then cross ++ [r] else cross
    if 5 ≤ same2.length ∧ 5 ≤ cross2.length then (same2, cross2)
    else routeCandidates db queryType rest same2 cross2

/-- The bucketing pass started from the two empty accumulators, as in the
source. -/
def searchBuckets (db : List Item) (queryType : String) (ranked : List (ℚ × Nat)) :
    List ResultObj × List ResultObj :=
  routeCandidates db queryType ranked [] []

/-- Contract of the external call torch.topk(similarities, k) with the
default sorted=True, as documented by the library: the output pairs
(value, index) have exactly length k, distinct in-range indices, each
value equal to the score stored at its index, values in non-increasing
order, and every score at a non-selected index is at most every selected
value.  torch documents no tie-breaking rule among equal scores, so this
is a relation over possible outputs, not a function. -/
def IsTopK (scores : List ℚ) (k : Nat) (out : List (ℚ × Nat)) : Prop :=
  out.length = k ∧
  (out.map Prod.snd).Nodup ∧
  (∀ p ∈ out, p.2 < scores.length ∧ p.1 = scores.getD p.2 0) ∧
  (out.map Prod.fst).Sorted (· ≥ ·) ∧
  (∀ j, j < scores.length → j ∉ out.map Prod.snd →
    ∀ p ∈ out, scores.getD j 0 ≤ p.1)

instance (scores : List ℚ) (k : Nat) (out : List (ℚ × Nat)) :
    Decidable (IsTopK scores k out) := by
  unfold IsTopK; infer_instance

/-- The tie-breaking rule claimed by the spec: among candidates with
exactly equal similarity, the one with the smaller original index
position comes first. -/
def StableTies (out : List (ℚ × Nat)) : Prop :=
  out.Pairwise fun p q => p.1 = q.1 → p.2 < q.2

instance (out : List (ℚ × Nat)) : Decidable (StableTies out) := by
  unfold StableTies; infer_instance

/-- One entry of the metadata list found in the cache artifact.  The cache
is an arbitrary torch.load result, so an entry is either a dict (whose
type/url/label lookups with default "" are modelled by the Item fields) or
some non-dict value, which EarEngine._apply_data_prefix skips. -/
inductive CacheEntry where
  | dict (it : Item)
  | nondict
deriving DecidableEq, Repr

/-- Python s.split(sep, 1) on character lists for a non-empty separator:
none when sep does not occur, otherwise the part before the leftmost
occurrence and the part after it. -/
def splitFirst (sep : List Char) : List Char → Option (List Char × List Char)
  | [] => none
  | c :: rest =>
    if sep.isPrefixOf (c :: rest) then some ([], (c :: rest).drop sep.length)
    else
      match splitFirst sep rest with
      | some pr => some (c :: pr.1, pr.2)
      | none => none

/-- Python s.split(c) for a single-character separator. -/
def splitOnChar (c : Char) : List Char → List (List Char)
  | [] => [[]]
  | x :: rest =>
    let r := splitOnChar c rest
    if x == c then [] :: r
    else
      match r with
      | h :: t => (x :: h) :: t
      | [] => [[x]]

/-- The relative part the source extracts from a stored url in
EarEngine._apply_data_prefix: everything after the first "/data/" if that
substring occurs (Python url.split("/data/", 1)[1]), else the url with
leading slashes stripped (Python url.lstrip("/")) if it starts with "/",
else the empty string. -/
def relFromUrl (url : String) : String :=
  match splitFirst "/data/".toList url.toList with
  | some pr => String.mk pr.2
  | none =>
    match url.toList with
    | '/' :: _ => String.mk (url.toList.dropWhile (· = '/'))
    | _ => ""

/-- Per-dict-entry rewrite of EarEngine._apply_data_prefix: when a
non-empty relative part was extracted, the url is replaced by the current
data url prefix joined with it; otherwise the entry is kept unchanged. -/
def updateEntry (pre : String) (it : Item) : Item :=
  let rel := relFromUrl it.url
  if rel ≠ "" then { it with url := pre ++ "/" ++ rel } else it

/-- EarEngine._apply_data_prefix lines 103-121: walks the metadata list,
skips entries that are not dicts, and rewrites each dict entry with
updateEntry. -/
def applyDataPre (pre : String) (m : List CacheEntry) : List Item :=
  m.filterMap fun e =>
    match e with
    | .dict it => some (updateEntry pre it)
    | .nondict => none

/-- The in-memory index state of EarEngine: db_metadata and db_tensor
(None before a successful load/rebuild). -/
structure EngineSt where
  db_metadata : List Item
  db_tensor : Option (List Row)
deriving DecidableEq

/-- The invariant claimed for every index exposed to queries: the metadata
list has exactly one entry per row of the tensor. -/
def indexInvariant (st : EngineSt) : Prop :=
  ∀ t, st.db_tensor = some t → st.db_metadata.length = t.length

/-- The cache artifact contents: a metadata list and a tensor,
as stored by torch.save and returned by torch.load. -/
structure CacheData where
  metadata : List CacheEntry
  tensor : List Row
deriving DecidableEq

/-- The cache branch of EarEngine._index_dataset lines 154-162: on a
successful torch.load, db_metadata is the prefix-rewritten metadata list
and db_tensor is the loaded tensor, with no validation of the cache
contents. -/
def loadCache (pre : String) (c : CacheData) : EngineSt :=
  { db_metadata := applyDataPre pre c.metadata, db_tensor := some c.tensor }

/-- Python label derivation in _index_dataset:
rel_path.split("/")[1] if "/" in rel_path else rel_path. -/
def labelOf (rel : String) : String :=
  if rel.toList.contains '/' then String.mk ((splitOnChar '/' rel.toList).getD 1 [])
  else rel

/-- One dataset file as seen by the rebuild loop: its path relative to the
dataset root, and the outcome of decoding plus embedding it (none models
the exception path, which the source catches and logs per file). -/
structure FileEntry where
  relPath : String
  result : Option Row
deriving DecidableEq

/-- Processing of one dataset file inside the rebuild loops of
_index_dataset: on success the produced metadata dict carries the given
modality, the url prefix-joined relative path, and the derived label,
paired with the embedding row; on a caught per-file failure nothing is
produced. -/
def indexFile (pre modality : String) (f : FileEntry) : Option (Item × Row) :=
  f.result.map fun row =>
    ({ type := modality, url := pre ++ "/" ++ f.relPath, label := labelOf f.relPath }, row)

/-- Engine-level errors of engine.py: EarDatasetEmpty. -/
inductive EarError where
  | datasetEmpty
deriving DecidableEq

/-- Result of a successful rebuild: the new in-memory state and the cache
artifact written by the best-effort torch.save (none when that write
failed, which the source only logs). -/
structure RebuildOut where
  state : EngineSt
  savedCache : Option CacheData
deriving DecidableEq

/-- The rebuild branch of EarEngine._index_dataset lines 166-233: the
audio files then the image files are processed one by one, failures being
skipped; if nothing was embedded the state is cleared and EarDatasetEmpty
is raised; otherwise db_metadata is _apply_data_prefix of the collected
dicts, db_tensor the concatenation of the collected rows, and the cache
write is attempted (cacheWriteOk says whether torch.save succeeds). -/
def indexDataset (pre : String) (audioFiles imageFiles : List FileEntry)
    (cacheWriteOk : Bool) : Except EarError RebuildOut :=
  let pairs := audioFiles.filterMap (indexFile pre "audio") ++
               imageFiles.filterMap (indexFile pre "image")
  if pairs.isEmpty then .error .datasetEmpty
  else
    let metadata := applyDataPre pre (pairs.map fun pr => CacheEntry.dict pr.1)
    let tensor := pairs.map Prod.snd
    .ok { state := { db_metadata := metadata, db_tensor := some tensor },
          savedCache :=
            if cacheWriteOk then some ⟨metadata.map CacheEntry.dict, tensor⟩ else none }

/-- Characters kept by werkzeug secure_filename's regex [A-Za-z0-9_.-]. -/
def isSafeChar (c : Char) : Bool :=
  c.isAlpha || c.isDigit || c == '_' || c == '.' || c == '-'

/-- Python str.split() with no argument: split on runs of whitespace,
discarding empty fragments. -/
def splitWs (l : List Char) : List (List Char) :=
  (l.splitOnP (·.isWhitespace)).filter (· ≠ [])

/-- Characters stripped from both ends by secure_filename's .strip("._"). -/
def isDotUnd (c : Char) : Bool := c == '.' || c == '_'

/-- Strip isDotUnd characters from both ends of a character list. -/
def stripDotUnd (l : List Char) : List Char :=
  ((l.dropWhile isDotUnd).reverse.dropWhile isDotUnd).reverse

/-- werkzeug.utils.secure_filename on a POSIX host: NFKD-normalize and
drop non-ASCII (modelled as dropping characters above 127; NFKD output is
then ASCII and flows through the same pipeline), replace os.sep "/" with a
space (os.altsep is None on POSIX), join the whitespace-split words with
"_", delete every character outside [A-Za-z0-9_.-], and strip "." and "_"
from both ends. -/
def sanitizeJoin (s : String) : List Char :=
  let ascii := s.toList.filter fun c => c.toNat ≤ 127
  let replaced := ascii.map fun c => if c == '/' then ' ' else c
  ((splitWs replaced).intersperse ['_']).flatten

def secure_filename (s : String) : String :=
  String.mk (stripDotUnd ((sanitizeJoin s).filter isSafeChar))

/-- The staged upload path EarEngine.query computes:
self.upload_folder / secure_filename(file.filename) under pathlib, where
joining with the empty string leaves the folder path unchanged. -/
def stagedPath (folder name : String) : String :=
  if name = "" then folder else folder ++ "/" ++ name

/-- The path is a direct child of the folder: the folder joined with one
non-empty component containing no path separator. -/
def isDirectChild (folder path : String) : Prop :=
  ∃ n, n ≠ "" ∧ ¬ '/' ∈ n.toList ∧ path = folder ++ "/" ++ n

/-- Python str.endswith on character lists. -/
def endsWithStr (s suf : String) : Bool :=
  suf.toList.isSuffixOf s.toList

/-- Python str.lower, character by character. -/
def lowerStr (s : String) : String :=
  String.mk (s.toList.map Char.toLower)

/-- The image extension allow-list of _handle_query line 258, applied to
the lower-cased staged file name. -/
def imageExt (s : String) : Bool :=
  endsWithStr s ".jpg" || endsWithStr s ".jpeg" || endsWithStr s ".png"

/-- The audio extension allow-list of _handle_query line 263. -/
def audioExt (s : String) : Bool :=
  endsWithStr s ".wav" || endsWithStr s ".mp3" || endsWithStr s ".webm" ||
  endsWithStr s ".mp4" || endsWithStr s ".m4a"

/-- Modality classification of _handle_query: image branch first, then
audio branch, else the unsupported-type failure. -/
def queryTypeOf (lower : String) : Option String :=
  if imageExt lower then some "image"
  else if audioExt lower then some "audio"
  else none

/-- Exception kinds that can escape engine.query, as discriminated by the
route handler: ValueError (with its message), EarDatasetEmpty, and any
other exception.  Decode and embedding failures of PIL / torchaudio
(UnidentifiedImageError is an OSError subclass, torchaudio raises
RuntimeError) are not ValueError and not EarDatasetEmpty, and engine.py
does not catch or wrap them, so they reach the route as .other. -/
inductive ExcKind where
  | valueError (msg : String)
  | datasetEmpty
  | other
deriving DecidableEq, Repr

/-- Observable resource events of one engine.query call: the file.save
into the upload folder, the decode/embed attempt on the staged file, and
the unlink performed by the finally block. -/
inductive Event where
  | staged (name : String)
  | encodeAttempted
  | cleanup
deriving DecidableEq, Repr

/-- Whether decoding plus embedding the uploaded bytes succeeds; the
encoder is an external collaborator, so this is an oracle input. -/
inductive DecodeOutcome where
  | ok
  | fail
deriving DecidableEq, Repr

/-- The JSON payload returned by _handle_query. -/
structure QueryResponse where
  query_type : String
  same_modality : List ResultObj
  cross_modality : List ResultObj
deriving DecidableEq, Repr

/-- EarEngine._handle_query lines 253-305 for a staged file whose name
lower-cases to lowerName: dispatch on the extension allow-lists (raising
ValueError("Unsupported file type") when neither matches, before touching
the file), then decode and embed (an encoder failure escapes as .other),
then bucket the ranked candidates.  The torch.topk output out is passed
as an oracle constrained by IsTopK in the theorems.  The returned list
records the decode/embed attempt as an event. -/
def handleQueryM (eng : EngineSt) (lowerName : String) (decode : DecodeOutcome)
    (out : List (ℚ × Nat)) : Except ExcKind QueryResponse × List Event :=
  match queryTypeOf lowerName with
  | none => (.error (.valueError "Unsupported file type"), [])
  | some qt =>
    match decode with
    | .fail => (.error .other, [.encodeAttempted])
    | .ok =>
      let bk := searchBuckets eng.db_metadata qt out
      (.ok ⟨qt, bk.1, bk.2⟩, [.encodeAttempted])

/-- EarEngine.query lines 235-251: reject an empty filename
(ValueError) and an empty index (EarDatasetEmpty) before staging; then
save the upload at upload_folder / secure_filename(filename).  When the
sanitized name is empty (e.g. filename ".."), that pathlib join is the
upload folder itself and FileStorage.save raises IsADirectoryError — an
OSError, reaching the route as a generic exception — before the
try/finally is entered, so nothing is staged and no cleanup runs.
Otherwise the file is staged, _handle_query runs under try, and the
finally block unlinks the staged file on every exit path.  The event
list is the observable resource trace. -/
def queryM (eng : EngineSt) (filename : String) (decode : DecodeOutcome)
    (out : List (ℚ × Nat)) : Except ExcKind QueryResponse × List Event :=
  if filename = "" then (.error (.valueError "No file provided"), [])
  else if eng.db_tensor = none ∨ eng.db_metadata.length = 0 then
    (.error .datasetEmpty, [])
  else if secure_filename filename = "" then (.error .other, [])
  else
    let staged := secure_filename filename
    let hq := handleQueryM eng (lowerStr staged) decode out
    (hq.1, Event.staged staged :: hq.2 ++ [Event.cleanup])

/-- The status code chosen by the blueprint route query_endpoint
(routes.py lines 72-86) for a given engine.query outcome: 200 on success,
400 for ValueError, 503 for EarDatasetEmpty, 500 for any other
exception. -/
def statusOf (r : Except ExcKind QueryResponse) : Nat :=
  match r with
  | .ok _ => 200
  | .error (.valueError _) => 400
  | .error .datasetEmpty => 503
  | .error .other => 500

/-- The full route guardrails of query_endpoint lines 59-86: 503 when the
engine is unavailable, 400 when the request carries no file part, else the
status derived from the engine.query outcome. -/
def queryEndpointStatus (engineReady hasFile : Bool)
    (engineResult : Except ExcKind QueryResponse) : Nat :=
  if !engineReady then 503
  else if !hasFile then 400
  else statusOf engineResult

/-- The module-level state of src/app/blueprints/ear/routes.py:
the globals _engine and _engine_error. -/
structure RouteSt where
  engine : Option Nat
  engineError : Option String
deriving DecidableEq, Repr

/-- What a construction attempt would encounter, an oracle for the
environment get_engine runs in: the base data directory is missing, the
EarEngine constructor raises, or construction succeeds with some engine
object (abstracted to a numeric identity). -/
inductive InitEnv where
  | dirMissing
  | raises (e : String)
  | ok (en : Nat)
deriving DecidableEq, Repr

/-- get_engine of routes.py lines 20-39 as a state transition.  Returns
the value of the Python return statement, the new global state, and
whether the EarEngine constructor was invoked (the expensive work). -/
def getEngine (warm : Bool) (env : InitEnv) (s : RouteSt) :
    Option Nat × RouteSt × Bool :=
  if s.engine ≠ none ∨ s.engineError ≠ none then (s.engine, s, false)
  else if !warm then (none, s, false)
  else
    match env with
    | .dirMissing =>
      (none, { s with engineError := some "Ear data directory not found" }, false)
    | .raises e => (none, { s with engineError := some e }, true)
    | .ok en => (some en, { s with engine := some en }, true)

/-! Helper lemmas. -/

lemma round3_mono {q r : ℚ} (h : q ≤ r) : round3 q ≤ round3 r := by
  unfold round3
  have hr : round (q * 1000) ≤ round (r * 1000) := by
    rw [round_eq, round_eq]
    exact Int.floor_le_floor (by linarith)
  have hc : ((round (q * 1000) : ℤ) : ℚ) ≤ ((round (r * 1000) : ℤ) : ℚ) := by
    exact_mod_cast hr
  exact div_le_div_of_nonneg_right hc (by norm_num) |>.trans_eq rfl

lemma sorted_score_append {acc : List ResultObj} {r : ResultObj}
    (hs : (acc.map ResultObj.score).Sorted (· ≥ ·))
    (hb : ∀ x ∈ acc, r.score ≤ x.score) :
    ((acc ++ [r]).map ResultObj.score).Sorted (· ≥ ·) := by
  rw [List.map_append, List.Sorted, List.pairwise_append]
  refine ⟨hs, by simp, ?_⟩
  intro a ha b hb2
  simp only [List.map_cons, List.map_nil, List.mem_singleton] at hb2
  subst hb2
  obtain ⟨x, hx, rfl⟩ := List.mem_map.mp ha
  exact hb x hx

lemma bucketUpdate_props {P : ResultObj → Prop} {acc : List ResultObj} (r : ResultObj)
    (d : Prop) [Decidable d] (tl : List (ℚ × Nat))
    (hlen : acc.length ≤ 5) (hdlen : d → acc.length < 5)
    (hP : ∀ x ∈ acc, P x) (hPr : d → P r)
    (hsort : (acc.map ResultObj.score).Sorted (· ≥ ·))
    (hbound : ∀ x ∈ acc, ∀ p ∈ tl, round3 p.1 ≤ x.score)
    (hboundr : ∀ p ∈ tl, round3 p.1 ≤ r.score)
    (hboundcur : ∀ x ∈ acc, r.score ≤ x.score) :
    (if d then acc ++ [r] else acc).length ≤ 5 ∧
    (∀ x ∈ (if d then acc ++ [r] else acc), P x) ∧
    (((if d then acc ++ [r] else acc).map ResultObj.score).Sorted (· ≥ ·)) ∧
    (∀ x ∈ (if d then acc ++ [r] else acc), ∀ p ∈ tl, round3 p.1 ≤ x.score) := by
  split
  case isTrue hd =>
    refine ⟨?_, ?_, sorted_score_append hsort hboundcur, ?_⟩
    · have := hdlen hd
      simp only [List.length_append, List.length_singleton]
      omega
    · intro x hx
      rcases List.mem_append.mp hx with hx1 | hx2
      · exact hP x hx1
      · rw [List.mem_singleton] at hx2
        subst hx2
        exact hPr hd
    · intro x hx p hp
      rcases List.mem_append.mp hx with hx1 | hx2
      · exact hbound x hx1 p hp
      · rw [List.mem_singleton] at hx2
        subst hx2
        exact hboundr p hp
  case isFalse => exact ⟨hlen, hP, hsort, hbound⟩

lemma routeCandidates_inv (db : List Item) (qt : String) :
    ∀ (ranked : List (ℚ × Nat)) (same cross : List ResultObj),
    same.length ≤ 5 → cross.length ≤ 5 →
    (∀ r ∈ same, r.type = qt) → (∀ r ∈ cross, r.type ≠ qt) →
    ((same.map ResultObj.score).Sorted (· ≥ ·)) →
    ((cross.map ResultObj.score).Sorted (· ≥ ·)) →
    ((ranked.map Prod.fst).Sorted (· ≥ ·)) →
    (∀ r ∈ same, ∀ p ∈ ranked, round3 p.1 ≤ r.score) →
    (∀ r ∈ cross, ∀ p ∈ ranked, round3 p.1 ≤ r.score) →
    (routeCandidates db qt ranked same cross).1.length ≤ 5 ∧
    (routeCandidates db qt ranked same cross).2.length ≤ 5 ∧
    (∀ r ∈ (routeCandidates db qt ranked same cross).1, r.type = qt) ∧
    (∀ r ∈ (routeCandidates db qt ranked same cross).2, r.type ≠ qt) ∧
    ((routeCandidates db qt ranked same cross).1.map ResultObj.score).Sorted (· ≥ ·) ∧
    ((routeCandidates db qt ranked same cross).2.map ResultObj.score).Sorted (· ≥ ·) := by
  intro ranked
  induction ranked with
  | nil =>
    intro same cross h1 h2 h3 h4 h5 h6 _ _ _
    exact ⟨h1, h2, h3, h4, h5, h6⟩
  | cons hd tl ih =>
    obtain ⟨s, i⟩ := hd
    intro same cross h1 h2 h3 h4 h5 h6 h7 h8 h9
    rw [List.map_cons, List.sorted_cons] at h7
    have hbr : ∀ p ∈ tl, round3 p.1 ≤ round3 s := by
      intro p hp
      exact round3_mono (h7.1 p.1 (List.mem_map_of_mem Prod.fst hp))
    have hsame := bucketUpdate_props (resultObjOf db s i)
      ((resultObjOf db s i).type = qt ∧ same.length < 5) tl
      h1 (fun hd2 => hd2.2) h3 (fun hd2 => hd2.1) h5
      (fun x hx p hp => h8 x hx p (List.mem_cons_of_mem _ hp)) hbr
      (fun x hx => h8 x hx (s, i) (List.mem_cons_self _ _))
    have hcross := bucketUpdate_props (resultObjOf db s i)
      ((resultObjOf db s i).type ≠ qt ∧ cross.length < 5) tl
      h2 (fun hd2 => hd2.2) h4 (fun hd2 => hd2.1) h6
      (fun x hx p hp => h9 x hx p (List.mem_cons_of_mem _ hp)) hbr
      (fun x hx => h9 x hx (s, i) (List.mem_cons_self _ _))
    simp only [routeCandidates]
    set same2 := if (resultObjOf db s i).type = qt ∧ same.length < 5
      then same ++ [resultObjOf db s i] else same with hs2
    set cross2 := if (resultObjOf db s i).type ≠ qt ∧ cross.length < 5
      then cross ++ [resultObjOf db s i] else cross with hc2
    split
    · exact ⟨hsame.1, hcross.1, hsame.2.1, hcross.2.1, hsame.2.2.1, hcross.2.2.1⟩
    · exact ih _ _ hsame.1 hcross.1 hsame.2.1 hcross.2.1 hsame.2.2.1 hcross.2.2.1
        h7.2 hsame.2.2.2 hcross.2.2.2

lemma subperm_map {α β : Type} (f : α → β) {l1 l2 : List α} (h : l1.Subperm l2) :
    (l1.map f).Subperm (l2.map f) := by
  obtain ⟨l, hp, hs⟩ := h
  exact ⟨l.map f, hp.map f, hs.map f⟩

lemma isTopK_scores_eq {scores : List ℚ} {k : Nat} {out : List (ℚ × Nat)}
    (h : IsTopK scores k out) :
    out.map Prod.fst = (List.insertionSort (· ≥ ·) scores).take k := by
  obtain ⟨hlen, hnodup, hmem, hsort, hdom⟩ := h
  have hproof : ∀ p ∈ out, p.2 < scores.length := fun p hp => (hmem p hp).1
  set fidxs : List (Fin scores.length) :=
    out.pmap (fun p hp => (⟨p.2, hp⟩ : Fin scores.length)) hproof with hfidxs
  have hvalmap : fidxs.map Fin.val = out.map Prod.snd := by
    rw [hfidxs, List.map_pmap]
    exact List.pmap_eq_map _ _ _ _
  have hnodupf : fidxs.Nodup := List.Nodup.of_map Fin.val (by rw [hvalmap]; exact hnodup)
  have hgetmap : fidxs.map scores.get = out.map Prod.fst := by
    rw [hfidxs, List.map_pmap]
    have hcg : out.pmap (fun p hp => scores.get (⟨p.2, hp⟩ : Fin scores.length)) hproof =
        out.pmap (fun p _ => p.1) hproof := by
      apply List.pmap_congr_left
      intro p hp h1 _
      rw [(hmem p hp).2, List.getD_eq_getElem scores 0 h1, List.get_eq_getElem]
    rw [hcg]
    exact List.pmap_eq_map _ _ _ _
  have hsubp : (out.map Prod.fst).Subperm scores := by
    rw [← hgetmap]
    have h1 : fidxs.Subperm (List.finRange scores.length) :=
      hnodupf.subperm (fun i _ => List.mem_finRange i)
    have h2 := subperm_map scores.get h1
    rwa [List.finRange_map_get] at h2
  obtain ⟨S2, hS2perm, hS2sub⟩ := hsubp
  obtain ⟨R, hR⟩ := hS2sub.exists_perm_append
  have hperm : scores.Perm (out.map Prod.fst ++ R) :=
    hR.trans (List.Perm.append_right R hS2perm)
  have hdomR : ∀ b ∈ R, ∀ a ∈ out.map Prod.fst, b ≤ a := by
    intro b hb
    have hcount : List.countP (fun x => x = b) scores =
        List.countP (fun x => x = b) (out.map Prod.fst) +
        List.countP (fun x => x = b) R := by
      rw [hperm.countP_eq, List.countP_append]
    have hpos : 0 < List.countP (fun x => x = b) R :=
      List.countP_pos_iff.mpr ⟨b, hb, by simp⟩
    have hscores : List.countP (fun x => x = b) scores =
        List.countP (fun i => scores.get i = b) (List.finRange scores.length) := by
      conv_lhs => rw [← List.finRange_map_get scores]
      rw [List.countP_map]
      rfl
    have hout : List.countP (fun x => x = b) (out.map Prod.fst) =
        List.countP (fun i => scores.get i = b) fidxs := by
      rw [← hgetmap, List.countP_map]
      rfl
    have hex : ∃ i : Fin scores.length, scores.get i = b ∧ i ∉ fidxs := by
      by_contra hno
      push_neg at hno
      have hsubset : (List.finRange scores.length).filter (fun i => scores.get i = b) ⊆
          fidxs.filter (fun i => scores.get i = b) := by
        intro i hi
        rw [List.mem_filter] at hi ⊢
        exact ⟨hno i (of_decide_eq_true hi.2), hi.2⟩
      have hndp : ((List.finRange scores.length).filter
          (fun i => decide (scores.get i = b))).Nodup :=
        (List.nodup_finRange _).filter _
      have hlenle := (hndp.subperm hsubset).length_le
      rw [← List.countP_eq_length_filter, ← List.countP_eq_length_filter] at hlenle
      omega
    obtain ⟨i, hib, hinot⟩ := hex
    have hnotmem : (i : Nat) ∉ out.map Prod.snd := by
      intro hmem2
      rw [← hvalmap] at hmem2
      obtain ⟨i2, hi2, hval⟩ := List.mem_map.mp hmem2
      exact hinot (by rwa [show i2 = i from Fin.ext hval] at hi2)
    intro a ha
    obtain ⟨p, hp, rfl⟩ := List.mem_map.mp ha
    have hd := hdom i i.isLt hnotmem p hp
    rwa [List.getD_eq_getElem scores 0 i.isLt, ← List.get_eq_getElem, hib] at hd
  have hSR : List.Sorted (· ≥ ·) (out.map Prod.fst ++ List.insertionSort (· ≥ ·) R) := by
    rw [List.Sorted, List.pairwise_append]
    refine ⟨hsort, List.sorted_insertionSort _ _, ?_⟩
    intro a ha b hb
    exact hdomR b ((List.perm_insertionSort _ R).mem_iff.mp hb) a ha
  have hperm2 : scores.Perm (out.map Prod.fst ++ List.insertionSort (· ≥ ·) R) :=
    hperm.trans (List.Perm.append_left _ (List.perm_insertionSort _ R).symm)
  have heq : List.insertionSort (· ≥ ·) scores =
      out.map Prod.fst ++ List.insertionSort (· ≥ ·) R :=
    List.eq_of_perm_of_sorted ((List.perm_insertionSort _ _).trans hperm2)
      (List.sorted_insertionSort _ _) hSR
  have hklen : (out.map Prod.fst).length = k := by rw [List.length_map, hlen]
  rw [heq, ← hklen, List.take_left]

lemma applyDataPre_map_dict (pre : String) (l : List Item) :
    applyDataPre pre (l.map CacheEntry.dict) = l.map (updateEntry pre) := by
  induction l with
  | nil => rfl
  | cons a t ih => simp only [applyDataPre, List.map_cons, List.filterMap_cons] at *; rw [ih]

lemma applyDataPre_length_of_dict {pre : String} {m : List CacheEntry}
    (h : ∀ e ∈ m, ∃ it, e = CacheEntry.dict it) :
    (applyDataPre pre m).length = m.length := by
  induction m with
  | nil => rfl
  | cons e t ih =>
    obtain ⟨it, rfl⟩ := h e (List.mem_cons_self _ _)
    simp only [applyDataPre, List.filterMap_cons, List.length_cons] at *
    rw [ih (fun x hx => h x (List.mem_cons_of_mem _ hx))]

lemma mem_applyDataPre {pre : String} {m : List CacheEntry} {x : Item} :
    x ∈ applyDataPre pre m ↔ ∃ it, CacheEntry.dict it ∈ m ∧ x = updateEntry pre it := by
  unfold applyDataPre
  rw [List.mem_filterMap]
  constructor
  · rintro ⟨e, he, hx⟩
    cases e with
    | dict it =>
      simp only [Option.some.injEq] at hx
      exact ⟨it, he, hx.symm⟩
    | nondict => simp at hx
  · rintro ⟨it, hm, rfl⟩
    exact ⟨.dict it, hm, rfl⟩

lemma updateEntry_url_shape (pre : String) (it : Item)
    (h : ∃ rest, it.url = pre ++ "/" ++ rest) :
    ∃ rest, (updateEntry pre it).url = pre ++ "/" ++ rest := by
  unfold updateEntry
  dsimp only
  split
  · exact ⟨relFromUrl it.url, rfl⟩
  · exact h

lemma mem_filterMap_indexFile {pre m : String} {files : List FileEntry}
    {pr : Item × Row} (h : pr ∈ files.filterMap (indexFile pre m)) :
    ∃ f ∈ files, ∃ row, f.result = some row ∧
      pr = ({ type := m, url := pre ++ "/" ++ f.relPath, label := labelOf f.relPath }, row) := by
  obtain ⟨f, hf, hfp⟩ := List.mem_filterMap.mp h
  unfold indexFile at hfp
  cases hr : f.result with
  | none => rw [hr] at hfp; simp at hfp
  | some row =>
    rw [hr] at hfp
    simp only [Option.map_some', Option.some.injEq] at hfp
    exact ⟨f, hf, row, hr, hfp.symm⟩

lemma filterMap_indexFile_filter (pre m : String) (l : List FileEntry) :
    (l.filter fun f => f.result.isSome).filterMap (indexFile pre m) =
    l.filterMap (indexFile pre m) := by
  induction l with
  | nil => rfl
  | cons f t ih =>
    cases hr : f.result with
    | none => simp [List.filter_cons, List.filterMap_cons, hr, indexFile, ih]
    | some row => simp [List.filter_cons, List.filterMap_cons, hr, indexFile, ih]

lemma indexFile_eq_none_iff {pre m : String} {f : FileEntry} :
    indexFile pre m f = none ↔ f.result = none := by
  unfold indexFile
  exact Option.map_eq_none'

lemma stripDotUnd_subset {l : List Char} : ∀ c ∈ stripDotUnd l, c ∈ l := by
  intro c hc
  unfold stripDotUnd at hc
  rw [List.mem_reverse] at hc
  have h1 := (List.dropWhile_sublist isDotUnd).subset hc
  rw [List.mem_reverse] at h1
  exact (List.dropWhile_sublist isDotUnd).subset h1

lemma dropWhile_eq_cons_false {p : Char → Bool} {l t : List Char} {c : Char}
    (h : l.dropWhile p = c :: t) : p c = false := by
  induction l with
  | nil => simp at h
  | cons a l2 ih =>
    rw [List.dropWhile_cons] at h
    split at h
    · exact ih h
    · next hcond =>
      injection h with h1 _
      subst h1
      simpa using hcond

lemma stripDotUnd_head_false {l t : List Char} {c : Char}
    (h : stripDotUnd l = c :: t) : isDotUnd c = false := by
  unfold stripDotUnd at h
  have hsuf : (l.dropWhile isDotUnd).reverse.dropWhile isDotUnd <:+
      (l.dropWhile isDotUnd).reverse := List.dropWhile_suffix _
  have hpre : ((l.dropWhile isDotUnd).reverse.dropWhile isDotUnd).reverse <+:
      l.dropWhile isDotUnd := by
    rw [← List.reverse_suffix]
    simpa using hsuf
  obtain ⟨rest, hrest⟩ := hpre
  rw [h] at hrest
  exact dropWhile_eq_cons_false hrest.symm

lemma secure_filename_chars (filename : String) :
    ∀ c ∈ (secure_filename filename).toList, isSafeChar c = true := by
  intro c hc
  obtain ⟨l, hl⟩ : ∃ l : List Char, (secure_filename filename).toList =
      stripDotUnd (l.filter isSafeChar) := ⟨sanitizeJoin filename, rfl⟩
  rw [hl] at hc
  exact (List.mem_filter.mp (stripDotUnd_subset c hc)).2

lemma secure_filename_head {filename : String} {c : Char} {t : List Char}
    (h : (secure_filename filename).toList = c :: t) : isDotUnd c = false := by
  obtain ⟨l, hl⟩ : ∃ l : List Char, (secure_filename filename).toList = stripDotUnd l :=
    ⟨(sanitizeJoin filename).filter isSafeChar, rfl⟩
  rw [hl] at h
  exact stripDotUnd_head_false h

lemma indexDataset_error_iff {pre : String} {audio image : List FileEntry} {cw : Bool} :
    indexDataset pre audio image cw = .error .datasetEmpty ↔
      (audio.filterMap (indexFile pre "audio") ++
       image.filterMap (indexFile pre "image")).isEmpty := by
  unfold indexDataset
  dsimp only
  split
  · simp_all
  · simp_all

lemma getLast?_cons_append_singleton {α : Type} (x a : α) (l : List α) :
    (x :: (l ++ [a])).getLast? = some a := by
  rw [← List.cons_append]
  exact List.getLast?_concat _

/-! Claim theorems. -/

/-- C1: for every query, when the candidate list is ranked in
descending-score order, the bucketing walk of _handle_query routes every
appended candidate into same_modality exactly when its stored modality
equals the query modality (cross_modality otherwise), each of the two
returned buckets holds at most 5 (k_per_bucket) entries, and within each
bucket the stored scores are non-increasing in list order. -/
theorem c1_bucket_partition (db : List Item) (qt : String) (ranked : List (ℚ × Nat))
    (hranked : (ranked.map Prod.fst).Sorted (· ≥ ·)) :
    (searchBuckets db qt ranked).1.length ≤ 5 ∧
    (searchBuckets db qt ranked).2.length ≤ 5 ∧
    (∀ r ∈ (searchBuckets db qt ranked).1, r.type = qt) ∧
    (∀ r ∈ (searchBuckets db qt ranked).2, r.type ≠ qt) ∧
    ((searchBuckets db qt ranked).1.map ResultObj.score).Sorted (· ≥ ·) ∧
    ((searchBuckets db qt ranked).2.map ResultObj.score).Sorted (· ≥ ·) := by
  unfold searchBuckets
  exact routeCandidates_inv db qt ranked [] []
    (by simp) (by simp) (by simp) (by simp) (by simp) (by simp) hranked
    (by simp) (by simp)

/-- Witness for C1 at a concrete index and ranked candidate list. -/
theorem c1_bucket_partition_witness :
    (([((3 : ℚ), 0), (1, 1)].map Prod.fst).Sorted (· ≥ ·)) ∧
    ((searchBuckets [⟨"image", "u1", "l1"⟩, ⟨"audio", "u2", "l2"⟩] "image"
        [((3 : ℚ), 0), (1, 1)]).1.length ≤ 5 ∧
     (searchBuckets [⟨"image", "u1", "l1"⟩, ⟨"audio", "u2", "l2"⟩] "image"
        [((3 : ℚ), 0), (1, 1)]).2.length ≤ 5 ∧
     (∀ r ∈ (searchBuckets [⟨"image", "u1", "l1"⟩, ⟨"audio", "u2", "l2"⟩] "image"
        [((3 : ℚ), 0), (1, 1)]).1, r.type = "image") ∧
     (∀ r ∈ (searchBuckets [⟨"image", "u1", "l1"⟩, ⟨"audio", "u2", "l2"⟩] "image"
        [((3 : ℚ), 0), (1, 1)]).2, r.type ≠ "image") ∧
     ((searchBuckets [⟨"image", "u1", "l1"⟩, ⟨"audio", "u2", "l2"⟩] "image"
        [((3 : ℚ), 0), (1, 1)]).1.map ResultObj.score).Sorted (· ≥ ·) ∧
     ((searchBuckets [⟨"image", "u1", "l1"⟩, ⟨"audio", "u2", "l2"⟩] "image"
        [((3 : ℚ), 0), (1, 1)]).2.map ResultObj.score).Sorted (· ≥ ·)) :=
  ⟨by decide, c1_bucket_partition _ _ _ (by decide)⟩

/-- C2 counterexample: for the score list with an exact tie, the output
that ranks the larger original index first satisfies every guarantee
torch.topk documents (IsTopK), yet violates the claimed smaller-index-
first stable tie-breaking, so the code does not guarantee the claim. -/
theorem c2_tiebreak_counterexample :
    IsTopK [(1 : ℚ), 1] (min 100 [(1 : ℚ), 1].length) [(1, 1), (1, 0)] ∧
    ¬ StableTies [((1 : ℚ), 1), (1, 0)] := by decide

/-- C2 (amended): for every query embedding and index contents, every
output satisfying the torch.topk contract has exactly min(100, n)
candidates and its score sequence equals the first min(100, n) entries of
the descending-sorted similarity list; which of two exactly-tied items
comes first is not determined. -/
theorem c2_topk_candidates (scores : List ℚ) (out : List (ℚ × Nat))
    (h : IsTopK scores (min 100 scores.length) out) :
    out.length = min 100 scores.length ∧
    out.map Prod.fst =
      (List.insertionSort (· ≥ ·) scores).take (min 100 scores.length) :=
  ⟨h.1, isTopK_scores_eq h⟩

/-- Witness for C2 at a concrete score list and topk output. -/
theorem c2_topk_candidates_witness :
    IsTopK [(2 : ℚ), 1] (min 100 [(2 : ℚ), 1].length) [(2, 0), (1, 1)] ∧
    ([((2 : ℚ), 0), (1, 1)].length = min 100 [(2 : ℚ), 1].length ∧
     [((2 : ℚ), 0), (1, 1)].map Prod.fst =
       (List.insertionSort (· ≥ ·) [(2 : ℚ), 1]).take (min 100 [(2 : ℚ), 1].length)) :=
  ⟨by decide, c2_topk_candidates _ _ (by decide)⟩

/-- C3 counterexample: loading a cache whose metadata list contains a
non-dict entry exposes an index with one metadata item but two tensor
rows, violating len(db_metadata) = rows(db_tensor). -/
theorem c3_invariant_counterexample :
    ¬ indexInvariant (loadCache "/ear/data"
      ⟨[CacheEntry.dict ⟨"audio", "/ear/data/a.wav", "a"⟩, CacheEntry.nondict],
       [[1], [2]]⟩) := fun h =>
  absurd (h [[1], [2]] rfl) (by decide)

/-- C3 (amended): every index produced by a rebuild satisfies
len(db_metadata) = rows(db_tensor), with the i-th metadata item and the
i-th row coming from the same dataset file; a cache load only preserves
the metadata length when every cache metadata entry is a dict, and the
code performs no validation tying that length to the tensor rows. -/
theorem c3_index_invariant :
    (∀ (pre : String) (audio image : List FileEntry) (cw : Bool) (out : RebuildOut),
      indexDataset pre audio image cw = .ok out →
      out.state.db_metadata =
        (audio.filterMap (indexFile pre "audio") ++
         image.filterMap (indexFile pre "image")).map (fun pr => updateEntry pre pr.1) ∧
      out.state.db_tensor =
        some ((audio.filterMap (indexFile pre "audio") ++
         image.filterMap (indexFile pre "image")).map Prod.snd) ∧
      indexInvariant out.state) ∧
    (∀ (pre : String) (c : CacheData),
      (∀ e ∈ c.metadata, ∃ it, e = CacheEntry.dict it) →
      (loadCache pre c).db_metadata.length = c.metadata.length) := by
  constructor
  · intro pre audio image cw out h
    unfold indexDataset at h
    dsimp only at h
    split at h
    · simp at h
    · rw [Except.ok.injEq] at h
      subst h
      refine ⟨?_, rfl, ?_⟩
      · dsimp only
        rw [show (fun pr : Item × Row => CacheEntry.dict pr.1) =
              CacheEntry.dict ∘ Prod.fst from rfl,
            ← List.map_map, applyDataPre_map_dict, List.map_map]
        rfl
      · intro t ht
        dsimp only at ht ⊢
        rw [Option.some.injEq] at ht
        subst ht
        rw [show (fun pr : Item × Row => CacheEntry.dict pr.1) =
              CacheEntry.dict ∘ Prod.fst from rfl,
            ← List.map_map, applyDataPre_map_dict]
        simp
  · intro pre c h
    exact applyDataPre_length_of_dict h

/-- Witness for C3 at a concrete well-formed cache. -/
theorem c3_index_invariant_witness :
    (∀ e ∈ [CacheEntry.dict ⟨"audio", "/ear/data/a.wav", "a"⟩],
      ∃ it, e = CacheEntry.dict it) ∧
    (loadCache "/ear/data"
      ⟨[CacheEntry.dict ⟨"audio", "/ear/data/a.wav", "a"⟩], [[1]]⟩).db_metadata.length =
      ([CacheEntry.dict ⟨"audio", "/ear/data/a.wav", "a"⟩] : List CacheEntry).length :=
  ⟨fun e he => ⟨⟨"audio", "/ear/data/a.wav", "a"⟩, by simpa using he⟩,
   c3_index_invariant.2 "/ear/data" ⟨[CacheEntry.dict ⟨"audio", "/ear/data/a.wav", "a"⟩], [[1]]⟩
     (fun e he => ⟨⟨"audio", "/ear/data/a.wav", "a"⟩, by simpa using he⟩)⟩

/-- C4: a failure to decode or embed an individual dataset file never
aborts indexing (the rebuild result is the same as if only the
successfully embedded files had been present, so later files are still
processed), the rebuild raises EarDatasetEmpty exactly when zero files
were successfully embedded, and a cache-write failure does not change the
rebuild outcome state. -/
theorem c4_rebuild_error_policy (pre : String) (audio image : List FileEntry)
    (cw : Bool) :
    (indexDataset pre audio image cw = .error .datasetEmpty ↔
      ∀ f ∈ audio ++ image, f.result = none) ∧
    indexDataset pre audio image cw =
      indexDataset pre (audio.filter fun f => f.result.isSome)
        (image.filter fun f => f.result.isSome) cw ∧
    (indexDataset pre audio image cw).map RebuildOut.state =
      (indexDataset pre audio image true).map RebuildOut.state := by
  refine ⟨?_, ?_, ?_⟩
  · rw [indexDataset_error_iff]
    rw [List.isEmpty_iff, List.append_eq_nil, List.filterMap_eq_nil_iff,
      List.filterMap_eq_nil_iff]
    constructor
    · rintro ⟨h1, h2⟩ f hf
      rcases List.mem_append.mp hf with hf1 | hf2
      · exact indexFile_eq_none_iff.mp (h1 f hf1)
      · exact indexFile_eq_none_iff.mp (h2 f hf2)
    · intro h
      exact ⟨fun f hf => indexFile_eq_none_iff.mpr (h f (List.mem_append_left _ hf)),
             fun f hf => indexFile_eq_none_iff.mpr (h f (List.mem_append_right _ hf))⟩
  · unfold indexDataset
    rw [filterMap_indexFile_filter, filterMap_indexFile_filter]
  · unfold indexDataset
    dsimp only
    split
    · rfl
    · rfl

/-- Witness for C4: a rebuild over a single file that failed to embed
raises EarDatasetEmpty, via the iff of the claim theorem. -/
theorem c4_rebuild_error_policy_witness :
    (∀ f ∈ [FileEntry.mk "a.wav" none] ++ ([] : List FileEntry), f.result = none) ∧
    indexDataset "/ear/data" [FileEntry.mk "a.wav" none] [] false =
      .error .datasetEmpty :=
  ⟨by decide,
   (c4_rebuild_error_policy "/ear/data" [FileEntry.mk "a.wav" none] [] false).1.mpr
     (by decide)⟩

/-- C5 counterexample: for the upload notes.txt the query fails with
ValueError("Unsupported file type") and no encoder call occurs, but the
artifact was staged to disk before that failure (the trace contains the
staged event), contradicting the claimed no-staging. -/
theorem c5_staging_counterexample :
    queryM ⟨[⟨"image", "u", "l"⟩], some [[1]]⟩ "notes.txt" .ok [] =
      (.error (.valueError "Unsupported file type"),
       [.staged "notes.txt", .cleanup]) ∧
    Event.staged "notes.txt" ∈
      (queryM ⟨[⟨"image", "u", "l"⟩], some [[1]]⟩ "notes.txt" .ok []).2 := by decide

/-- C5 (amended): for every upload whose filename extension is in neither
allow-list, no encoder call occurs; when the sanitized filename is
non-empty the query fails with ValueError("Unsupported file type") but
the artifact is staged to disk before the extension check and removed by
the unconditional cleanup before the query returns, and when the
sanitized filename is empty (e.g. "..") the file.save itself fails with
IsADirectoryError (a generic non-ValueError exception) before the
extension check, with nothing staged and no cleanup. -/
theorem c5_unsupported_type (eng : EngineSt) (filename : String)
    (decode : DecodeOutcome) (out : List (ℚ × Nat))
    (hname : ¬ filename = "") (ht : ¬ eng.db_tensor = none)
    (hm : ¬ eng.db_metadata.length = 0)
    (hext : queryTypeOf (lowerStr (secure_filename filename)) = none) :
    (secure_filename filename ≠ "" →
      queryM eng filename decode out =
        (.error (.valueError "Unsupported file type"),
         [.staged (secure_filename filename), .cleanup])) ∧
    (secure_filename filename = "" →
      queryM eng filename decode out = (.error .other, [])) := by
  have hcond : ¬ (eng.db_tensor = none ∨ eng.db_metadata.length = 0) := by
    push_neg
    exact ⟨ht, hm⟩
  constructor
  · intro hne
    unfold queryM
    rw [if_neg hname, if_neg hcond, if_neg hne]
    unfold handleQueryM
    dsimp only
    rw [hext]
    rfl
  · intro he
    unfold queryM
    rw [if_neg hname, if_neg hcond, if_pos he]

/-- Witness for C5 at the notes.txt scenario of the spec. -/
theorem c5_unsupported_type_witness :
    (¬ "notes.txt" = "" ∧
     ¬ (EngineSt.mk [⟨"image", "u", "l"⟩] (some [[1]])).db_tensor = none ∧
     ¬ (EngineSt.mk [⟨"image", "u", "l"⟩] (some [[1]])).db_metadata.length = 0 ∧
     queryTypeOf (lowerStr (secure_filename "notes.txt")) = none ∧
     secure_filename "notes.txt" ≠ "") ∧
    queryM ⟨[⟨"image", "u", "l"⟩], some [[1]]⟩ "notes.txt" .fail [] =
      (.error (.valueError "Unsupported file type"),
       [.staged (secure_filename "notes.txt"), .cleanup]) :=
  ⟨⟨by decide, by decide, by decide, by decide, by decide⟩,
   (c5_unsupported_type _ _ .fail [] (by decide) (by decide) (by decide)
     (by decide)).1 (by decide)⟩

/-- C6 counterexample: a corrupt upload with an allow-listed extension
(decode failure) is answered with status 500, not a 400-class status:
PIL and torchaudio decode errors are not ValueError and engine.py does
not wrap them, so the route's generic handler fires. -/
theorem c6_status_counterexample :
    queryEndpointStatus true true
      (queryM ⟨[⟨"image", "u", "l"⟩], some [[1]]⟩ "cat.jpg" .fail []).1 = 500 ∧
    ¬ (400 ≤ queryEndpointStatus true true
        (queryM ⟨[⟨"image", "u", "l"⟩], some [[1]]⟩ "cat.jpg" .fail []).1 ∧
       queryEndpointStatus true true
        (queryM ⟨[⟨"image", "u", "l"⟩], some [[1]]⟩ "cat.jpg" .fail []).1 < 500) := by
  decide

/-- C6 (amended): for every upload whose bytes fail to decode or embed,
the query endpoint reports the 500-class generic internal error (the
engine does not wrap decode failures in ValueError, so they are not
mapped to 400), which is still distinguishable from the 503 used for
EarDatasetEmpty. -/
theorem c6_decode_failure_is_500 (eng : EngineSt) (filename : String)
    (out : List (ℚ × Nat))
    (hname : ¬ filename = "") (ht : ¬ eng.db_tensor = none)
    (hm : ¬ eng.db_metadata.length = 0)
    (hext : (queryTypeOf (lowerStr (secure_filename filename))).isSome = true) :
    (queryM eng filename .fail out).1 = .error .other ∧
    queryEndpointStatus true true (queryM eng filename .fail out).1 = 500 ∧
    statusOf (.error .datasetEmpty) = 503 := by
  have hcond : ¬ (eng.db_tensor = none ∨ eng.db_metadata.length = 0) := by
    push_neg
    exact ⟨ht, hm⟩
  have hne : ¬ secure_filename filename = "" := by
    intro he
    rw [he] at hext
    exact absurd hext (by decide)
  obtain ⟨qt, hqt⟩ := Option.isSome_iff_exists.mp hext
  unfold queryM
  rw [if_neg hname, if_neg hcond, if_neg hne]
  unfold handleQueryM
  dsimp only
  rw [hqt]
  exact ⟨rfl, rfl, rfl⟩

/-- Witness for C6 at a corrupt image upload. -/
theorem c6_decode_failure_is_500_witness :
    (¬ "cat.jpg" = "" ∧
     ¬ (EngineSt.mk [⟨"image", "u", "l"⟩] (some [[1]])).db_tensor = none ∧
     ¬ (EngineSt.mk [⟨"image", "u", "l"⟩] (some [[1]])).db_metadata.length = 0 ∧
     (queryTypeOf (lowerStr (secure_filename "cat.jpg"))).isSome = true) ∧
    ((queryM ⟨[⟨"image", "u", "l"⟩], some [[1]]⟩ "cat.jpg" .fail []).1 =
       .error .other ∧
     queryEndpointStatus true true
       (queryM ⟨[⟨"image", "u", "l"⟩], some [[1]]⟩ "cat.jpg" .fail []).1 = 500 ∧
     statusOf (.error .datasetEmpty) = 503) :=
  ⟨⟨by decide, by decide, by decide, by decide⟩,
   c6_decode_failure_is_500 _ _ [] (by decide) (by decide) (by decide) (by decide)⟩

/-- C7: whenever a query stages its artifact (the trace contains a staged
event), the trace ends with the cleanup event: the staged file is removed
before query returns on every exit path, for every decode outcome and
every filename. -/
theorem c7_cleanup_on_every_path (eng : EngineSt) (filename : String)
    (decode : DecodeOutcome) (out : List (ℚ × Nat))
    (hstaged : ∃ n, Event.staged n ∈ (queryM eng filename decode out).2) :
    (queryM eng filename decode out).2.getLast? = some Event.cleanup := by
  by_cases h1 : filename = ""
  · exfalso
    obtain ⟨n, hn⟩ := hstaged
    unfold queryM at hn
    rw [if_pos h1] at hn
    simp at hn
  · by_cases h2 : eng.db_tensor = none ∨ eng.db_metadata.length = 0
    · exfalso
      obtain ⟨n, hn⟩ := hstaged
      unfold queryM at hn
      rw [if_neg h1, if_pos h2] at hn
      simp at hn
    · by_cases h3 : secure_filename filename = ""
      · exfalso
        obtain ⟨n, hn⟩ := hstaged
        unfold queryM at hn
        rw [if_neg h1, if_neg h2, if_pos h3] at hn
        simp at hn
      · unfold queryM
        rw [if_neg h1, if_neg h2, if_neg h3]
        dsimp only
        exact getLast?_cons_append_singleton _ _ _

/-- Witness for C7 at a concrete staged query. -/
theorem c7_cleanup_on_every_path_witness :
    (∃ n, Event.staged n ∈
      (queryM ⟨[⟨"image", "u", "l"⟩], some [[1]]⟩ "cat.jpg" .fail []).2) ∧
    (queryM ⟨[⟨"image", "u", "l"⟩], some [[1]]⟩ "cat.jpg" .fail []).2.getLast? =
      some Event.cleanup :=
  ⟨⟨"cat.jpg", by decide⟩,
   c7_cleanup_on_every_path _ _ _ _ ⟨"cat.jpg", by decide⟩⟩

/-- C8: get_engine is fail-once per process: in any state that has
recorded an engine or an error, every call returns the stored engine and
leaves the state unchanged without invoking the EarEngine constructor;
the first failing call records the error (with the constructor invoked
only when the data directory existed), and the first successful call
records the engine. -/
theorem c8_engine_init_terminal :
    (∀ (s : RouteSt) (warm : Bool) (env : InitEnv),
      s.engine ≠ none ∨ s.engineError ≠ none →
      getEngine warm env s = (s.engine, s, false)) ∧
    (∀ e, getEngine true (.raises e) ⟨none, none⟩ =
      (none, ⟨none, some e⟩, true)) ∧
    (∀ en, getEngine true (.ok en) ⟨none, none⟩ =
      (some en, ⟨some en, none⟩, true)) ∧
    getEngine true .dirMissing ⟨none, none⟩ =
      (none, ⟨none, some "Ear data directory not found"⟩, false) := by
  refine ⟨?_, fun e => rfl, fun en => rfl, rfl⟩
  intro s warm env h
  unfold getEngine
  rw [if_pos h]

/-- Witness for C8: a later call against a failed state is a no-op that
does not construct the engine, even with a working environment. -/
theorem c8_engine_init_terminal_witness :
    ((RouteSt.mk none (some "boom")).engine ≠ none ∨
     (RouteSt.mk none (some "boom")).engineError ≠ none) ∧
    getEngine true (.ok 7) ⟨none, some "boom"⟩ =
      ((RouteSt.mk none (some "boom")).engine, ⟨none, some "boom"⟩, false) :=
  ⟨by decide, c8_engine_init_terminal.1 ⟨none, some "boom"⟩ true (.ok 7) (by decide)⟩

/-- C9 counterexample: a cached dict entry whose stored url is the bare
relative path "x.wav" (no "/data/" substring, no leading slash) is kept
unchanged by the cache load, and its resulting url does not begin with the
engine's current data url prefix; the re-derivation is a heuristic over
the stored full url, not a stored relative path. -/
theorem c9_locator_counterexample :
    applyDataPre "/ear/data" [CacheEntry.dict ⟨"audio", "x.wav", "l"⟩] =
      [⟨"audio", "x.wav", "l"⟩] ∧
    ¬ ∃ rest, ("x.wav" : String) = "/ear/data" ++ rest := by
  refine ⟨by decide, ?_⟩
  rintro ⟨rest, h⟩
  have h2 := congrArg String.length h
  rw [String.length_append] at h2
  have h5 : ("x.wav" : String).length = 5 := rfl
  have h9 : ("/ear/data" : String).length = 9 := rfl
  omega

/-- C9 (amended): on a cache load, every dict entry from whose stored url
a non-empty relative part can be extracted (it contains "/data/" or
starts with "/") is rewritten to the current prefix joined with that
part, hence begins with the current prefix; every loaded item either has
a url of that shape or is an entry kept unchanged because no relative
part was extractable; and the cache written by a rebuild stores the fully
qualified prefixed url (from which the load re-derives the relative
part), not a bare relative path. -/
theorem c9_locator_rederivation :
    (∀ (pre : String) (m : List CacheEntry) (it : Item),
      CacheEntry.dict it ∈ m → relFromUrl it.url ≠ "" →
      { it with url := pre ++ "/" ++ relFromUrl it.url } ∈ applyDataPre pre m) ∧
    (∀ (pre : String) (m : List CacheEntry) (x : Item),
      x ∈ applyDataPre pre m →
      (∃ rest, x.url = pre ++ "/" ++ rest) ∨
      (∃ it, CacheEntry.dict it ∈ m ∧ x = it ∧ relFromUrl it.url = "")) ∧
    (∀ (pre : String) (audio image : List FileEntry) (out : RebuildOut),
      indexDataset pre audio image true = .ok out →
      ∀ sc, out.savedCache = some sc →
      ∀ e ∈ sc.metadata, ∃ it rest, e = CacheEntry.dict it ∧
        it.url = pre ++ "/" ++ rest) := by
  refine ⟨?_, ?_, ?_⟩
  · intro pre m it hm hrel
    apply mem_applyDataPre.mpr
    refine ⟨it, hm, ?_⟩
    unfold updateEntry
    rw [if_pos hrel]
  · intro pre m x hx
    obtain ⟨it, hm, rfl⟩ := mem_applyDataPre.mp hx
    unfold updateEntry
    dsimp only
    split
    · exact Or.inl ⟨relFromUrl it.url, rfl⟩
    · next hrel =>
      rw [not_not] at hrel
      exact Or.inr ⟨it, hm, rfl, hrel⟩
  · intro pre audio image out h sc hsc e he
    unfold indexDataset at h
    dsimp only at h
    split at h
    · simp at h
    · rw [Except.ok.injEq] at h
      subst h
      dsimp only at hsc
      rw [if_pos rfl, Option.some.injEq] at hsc
      subst hsc
      dsimp only at he
      obtain ⟨x, hx, rfl⟩ := List.mem_map.mp he
      refine ⟨x, ?_⟩
      obtain ⟨it0, hit0, rfl⟩ := mem_applyDataPre.mp hx
      have hshape : ∃ rest, it0.url = pre ++ "/" ++ rest := by
        obtain ⟨x0, hx0, hx0eq⟩ := List.mem_map.mp hit0
        rcases List.mem_append.mp hx0 with hxa | hxi
        · obtain ⟨f, _, row, _, hpr⟩ := mem_filterMap_indexFile hxa
          exact ⟨f.relPath, by rw [← (CacheEntry.dict.injEq _ _).mp hx0eq, hpr]⟩
        · obtain ⟨f, _, row, _, hpr⟩ := mem_filterMap_indexFile hxi
          exact ⟨f.relPath, by rw [← (CacheEntry.dict.injEq _ _).mp hx0eq, hpr]⟩
      obtain ⟨rest, hrest⟩ := updateEntry_url_shape pre it0 hshape
      exact ⟨rest, rfl, hrest⟩

/-- Witness for C9: a cached entry written under the old "/data" prefix
is re-derived to the current "/ear/data" prefix. -/
theorem c9_locator_rederivation_witness :
    (CacheEntry.dict ⟨"audio", "/data/a.wav", "l"⟩ ∈
       [CacheEntry.dict ⟨"audio", "/data/a.wav", "l"⟩] ∧
     relFromUrl "/data/a.wav" ≠ "") ∧
    { Item.mk "audio" "/data/a.wav" "l" with
        url := "/ear/data" ++ "/" ++ relFromUrl "/data/a.wav" } ∈
      applyDataPre "/ear/data" [CacheEntry.dict ⟨"audio", "/data/a.wav", "l"⟩] :=
  ⟨⟨by decide, by decide⟩,
   c9_locator_rederivation.1 "/ear/data" _ _ (by decide) (by decide)⟩

/-- C10 counterexample: the filename ".." sanitizes to the empty string,
so the staged path is the upload folder itself, not a direct child of it
as the claim states for every client-supplied filename. -/
theorem c10_staging_counterexample :
    secure_filename ".." = "" ∧
    stagedPath "uploads" (secure_filename "..") = "uploads" ∧
    ¬ isDirectChild "uploads" (stagedPath "uploads" (secure_filename "..")) := by
  refine ⟨by decide, by decide, ?_⟩
  rintro ⟨n, hne, hsep, hpath⟩
  rw [(by decide : stagedPath "uploads" (secure_filename "..") = "uploads")] at hpath
  have h2 := congrArg String.length hpath
  rw [String.length_append, String.length_append] at h2
  have h7 : ("uploads" : String).length = 7 := rfl
  have h1 : ("/" : String).length = 1 := rfl
  omega

/-- C10 (amended): the staged upload path is exactly upload_folder joined
with secure_filename(filename); the sanitized name contains only safe
characters (in particular no path separator) and is never "." or "..",
so whenever it is non-empty the staged path is a direct child of the
upload folder, and when it is empty the joined path is the upload folder
itself — in no case does the staged path escape the upload folder. -/
theorem c10_staged_path_contained (folder filename : String) :
    (∀ c ∈ (secure_filename filename).toList, isSafeChar c = true) ∧
    '/' ∉ (secure_filename filename).toList ∧
    secure_filename filename ≠ "." ∧
    secure_filename filename ≠ ".." ∧
    (secure_filename filename ≠ "" →
      isDirectChild folder (stagedPath folder (secure_filename filename))) ∧
    (secure_filename filename = "" →
      stagedPath folder (secure_filename filename) = folder) := by
  have hsafe := secure_filename_chars filename
  have hsep : '/' ∉ (secure_filename filename).toList := by
    intro hmem
    have := hsafe '/' hmem
    simp [isSafeChar] at this
  refine ⟨hsafe, hsep, ?_, ?_, ?_, ?_⟩
  · intro h
    have h2 : (secure_filename filename).toList = ['.'] := by
      rw [h]
      rfl
    have := secure_filename_head h2
    simp [isDotUnd] at this
  · intro h
    have h2 : (secure_filename filename).toList = ['.', '.'] := by
      rw [h]
      rfl
    have := secure_filename_head h2
    simp [isDotUnd] at this
  · intro hne
    refine ⟨secure_filename filename, hne, hsep, ?_⟩
    unfold stagedPath
    rw [if_neg hne]
  · intro he
    unfold stagedPath
    rw [if_pos he]

/-- Witness for C10: the conjuncts with hypotheses, discharged at the
filename "../../etc/passwd", whose sanitized form is "etc_passwd". -/
theorem c10_staged_path_contained_witness :
    (secure_filename "../../etc/passwd" ≠ "") ∧
    isDirectChild "uploads"
      (stagedPath "uploads" (secure_filename "../../etc/passwd")) :=
  ⟨by decide,
   (c10_staged_path_contained "uploads" "../../etc/passwd").2.2.2.2.1 (by decide)⟩

end EarSite
